import Mathlib

/-!
Shallow embedding of the task reconciliation engine of the
`mental_load_assistant` integration (`task_manager.py`, `coordinator.py`),
together with theorems settling the specification's claims about it.

Modelling conventions:
* Python `dict`s become association lists in insertion order (`Dict`);
  lookup takes the first matching key, assignment rewrites in place,
  deletion filters the key out.
* Timezone-aware datetimes are modelled by their UTC instant as a `Nat`;
  all-day `date` values are a separate constructor, because
  `_iso_or_empty` and `_parse_due` treat them differently.
* `uuid.uuid4()` draws are modelled by a counter in the state; `genUid n`
  is the n-th generated uid (distinct draws are provably distinct).
* The Planning Port (`ai_client`) is an external collaborator; it enters
  the model as a function argument `planner`.
-/

set_option maxHeartbeats 1000000

/-- Todo item status, mirroring the `TodoItemStatus` values the code uses. -/
inductive TodoStatus
  | needsAction
  | inProgress
  | completed
  deriving DecidableEq, Repr

/-- Association list standing in for a Python `dict`: insertion order is
kept, the first occurrence of a key wins on lookup. -/
abbrev Dict (α : Type) := List (String × α)

/-- `d[key]` / `d.get(key)`. -/
def dget {α : Type} : Dict α → String → Option α
  | [], _ => none
  | (k, v) :: rest, key => if k = key then some v else dget rest key

/-- `d[key] = v`: overwrite in place if present, else append. -/
def dset {α : Type} : Dict α → String → α → Dict α
  | [], key, v => [(key, v)]
  | (k, w) :: rest, key, v =>
      if k = key then (k, v) :: rest else (k, w) :: dset rest key v

/-- `d.pop(key, default)` (the removal part). -/
def dpop {α : Type} : Dict α → String → Dict α
  | [], _ => []
  | (k, v) :: rest, key =>
      if k = key then dpop rest key else (k, v) :: dpop rest key

/-- Iteration order of the dict's keys. -/
def dkeys {α : Type} (d : Dict α) : List String := d.map (fun kv => kv.1)

/-- Model of one `uuid.uuid4()` draw: the n-th generated uid.  Uids are
opaque unique strings; the model renders the counter in unary so distinct
draws are provably distinct. -/
def genUid (n : Nat) : String := String.mk ('u' :: List.replicate n 'i')

/-- A calendar event's start/end value: either a timezone-aware datetime
(modelled as its UTC instant) or an all-day `date`. -/
inductive EventTime
  | dt (t : Nat)
  | allday (d : Nat)
  deriving DecidableEq, Repr

/-- `homeassistant.components.calendar.CalendarEvent`: the fields the core
reads.  `stop` stands for the event's `end` (a keyword in Lean). -/
structure CalendarEvent where
  uid : Option String
  summary : String
  description : Option String
  start : EventTime
  stop : EventTime
  deriving DecidableEq, Repr

/-- Model of `dt_util.as_utc(value).isoformat()` for an aware datetime: an
injective rendering of the UTC instant. -/
def isoUtc (t : Nat) : String := toString t ++ "+00:00"

/-- `_iso_or_empty`: datetimes are serialized, anything else (an all-day
`date`) becomes the empty string. -/
def isoOrEmpty : EventTime → String
  | .dt t => isoUtc t
  | .allday _ => ""

/-- Python `x or ""` on an optional string. -/
def optOrEmpty (o : Option String) : String := o.getD ""

/-- Python truthiness of an optional string: not `None` and not `""`. -/
def truthyS : Option String → Bool
  | none => false
  | some s => !(s == "")

/-- Lexicographic comparison of character lists by code point, as Python
compares `str` values. -/
def charListLE : List Char → List Char → Bool
  | [], _ => true
  | _ :: _, [] => false
  | a :: as, b :: bs =>
      if a < b then true
      else if a = b then charListLE as bs
      else false

/-- Python string `<=` (lexicographic by code point). -/
def strLE (a b : String) : Bool := charListLE a.data b.data

/-- Python `str.startswith`. -/
def strStartsWith (s p : String) : Bool := p.data.isPrefixOf s.data

/-- `_event_signature`. -/
def eventSignature (e : CalendarEvent) : String :=
  String.intercalate "|"
    [e.summary, optOrEmpty e.description, isoOrEmpty e.start, isoOrEmpty e.stop]

/-- Model of `dt_util.start_of_local_day` composed with `as_utc`. -/
def startOfLocalDay (d : Nat) : Nat := d

/-- `_parse_due` restricted to the values that occur for event start/end:
datetimes are normalized to UTC, dates to the start of the local day. -/
def parseDue : EventTime → Option Nat
  | .dt t => some t
  | .allday d => some (startOfLocalDay d)

/-- `ai_client.PlannedTask`. -/
structure PlannedTask where
  title : String
  description : Option String := none
  due : Option Nat := none
  effort : Option String := none
  category : Option String := none
  notes : Option String := none
  deriving DecidableEq, Repr

/-- `ai_client.PlannedResponse`. -/
structure PlannedResponse where
  tasks : List PlannedTask
  mentalLoad : Option String
  summaryNotes : Option String
  deriving DecidableEq, Repr

/-- `_child_description`. -/
def childDescription (p : PlannedTask) : Option String :=
  let parts : List String :=
    (if truthyS p.description then [p.description.getD ""] else [])
    ++ (if truthyS p.effort then ["Mental Load: " ++ p.effort.getD ""] else [])
    ++ (if truthyS p.notes then [p.notes.getD ""] else [])
  if parts = [] then none else some (String.intercalate "\n" parts)

/-- The fields of a `TodoItem` as stored by the manager; the `extra` dict's
three keys become explicit optional fields. -/
structure TodoItemL where
  uid : String
  summary : String
  description : Option String
  status : TodoStatus
  due : Option Nat
  extraSource : Option String
  extraParentUid : Option String
  extraMentalLoad : Option String
  deriving DecidableEq, Repr

/-- `task_manager.StoredTask`. -/
structure StoredTask where
  item : TodoItemL
  parentKey : String
  isParent : Bool
  deriving DecidableEq, Repr

/-- A `_parent_meta` entry (`dict[str, str | None]` with fixed keys). -/
structure Meta where
  source : Option String := none
  summary : Option String := none
  mentalLoad : Option String := none
  notes : Option String := none
  parentUid : Option String := none
  deriving DecidableEq, Repr

/-- The mutable state of `MentalLoadTaskManager`, plus the uuid counter. -/
structure ManagerState where
  tasks : Dict StoredTask
  parentChildren : Dict (List String)
  parentMeta : Dict Meta
  eventSignatures : Dict String
  nextUid : Nat
  deriving DecidableEq, Repr

/-- The state of a freshly constructed manager. -/
def emptyState : ManagerState := ⟨[], [], [], [], 0⟩

/-- `_derive_parent_status` (initial status of a new parent). -/
def deriveParentStatus (tasks : List PlannedTask) : TodoStatus :=
  if tasks = [] then .needsAction else .inProgress

/-- One iteration of the child-creation loop in `_replace_parent_tasks`:
the accumulator carries (tasks, parent-children index, uuid counter). -/
def addChild (parentKey parentSummary : String) (src : Option String)
    (parentUid : String) (dueOverride : Option Nat)
    (acc : Dict StoredTask × Dict (List String) × Nat) (p : PlannedTask) :
    Dict StoredTask × Dict (List String) × Nat :=
  let childUid := genUid acc.2.2
  let item : TodoItemL :=
    { uid := childUid
      summary := parentSummary ++ ": " ++ p.title
      description := childDescription p
      status := .needsAction
      due := p.due.orElse (fun _ => dueOverride)
      extraSource := src
      extraParentUid := some parentUid
      extraMentalLoad := p.effort }
  let cur := (dget acc.2.1 parentKey).getD []
  (dset acc.1 childUid ⟨item, parentKey, false⟩,
   dset acc.2.1 parentKey (if childUid ∈ cur then cur else cur ++ [childUid]),
   acc.2.2 + 1)

/-- `_replace_parent_tasks`.  Note: the source pops the previous plan's
child uids (the popped `_parent_children` set) out of `_tasks`, but not the
previous parent task's uid. -/
def replaceParentTasks (s : ManagerState) (parentKey : String)
    (plan : PlannedResponse) (dueOverride : Option Nat) : ManagerState :=
  let existing := (dget s.parentChildren parentKey).getD []
  let pc0 := dpop s.parentChildren parentKey
  let tasks0 := existing.foldl (fun t uid => dpop t uid) s.tasks
  let parentUid := genUid s.nextUid
  let meta := (dget s.parentMeta parentKey).getD {}
  let parentSummary :=
    if truthyS meta.summary then meta.summary.getD "" else "Mental Load Aufgabe"
  let notes : Option String :=
    if truthyS plan.mentalLoad then
      some (optOrEmpty plan.summaryNotes ++ "\nMental Load Bewertung: "
            ++ plan.mentalLoad.getD "")
    else plan.summaryNotes
  let parentItem : TodoItemL :=
    { uid := parentUid
      summary := parentSummary
      description := notes
      status := deriveParentStatus plan.tasks
      due := dueOverride
      extraSource := meta.source
      extraParentUid := none
      extraMentalLoad := plan.mentalLoad }
  let tasks1 := dset tasks0 parentUid ⟨parentItem, parentKey, true⟩
  let pc1 := dset pc0 parentKey []
  let pm1 := dset s.parentMeta parentKey { meta with parentUid := some parentUid }
  let start : Dict StoredTask × Dict (List String) × Nat :=
    (tasks1, pc1, s.nextUid + 1)
  let result :=
    plan.tasks.foldl (addChild parentKey parentSummary meta.source parentUid dueOverride) start
  { s with
      tasks := result.1
      parentChildren := result.2.1
      parentMeta := pm1
      nextUid := result.2.2 }

/-- `async_process_calendar_event`: also reports whether tasks changed and
how many Planning Port calls were made (0 or 1). -/
def processCalendarEvent (planner : CalendarEvent → PlannedResponse)
    (s : ManagerState) (parentKey : String) (e : CalendarEvent) :
    ManagerState × Bool × Nat :=
  let signature := eventSignature e
  if dget s.eventSignatures parentKey = some signature then (s, false, 0)
  else
    let plan := planner e
    let meta : Meta :=
      { source := some "calendar"
        summary := some e.summary
        mentalLoad := plan.mentalLoad
        notes := plan.summaryNotes
        parentUid := none }
    let s1 := { s with
        eventSignatures := dset s.eventSignatures parentKey signature
        parentMeta := dset s.parentMeta parentKey meta }
    let dueDt := (parseDue e.start).orElse (fun _ => parseDue e.stop)
    (replaceParentTasks s1 parentKey plan dueDt, true, 1)

/-- `_remove_parent`.  Note: the recorded `_event_signatures` entry for the
key is not touched by the source. -/
def removeParent (s : ManagerState) (parentKey : String) : ManagerState :=
  let children := (dget s.parentChildren parentKey).getD []
  let pc1 := dpop s.parentChildren parentKey
  let tasks1 := children.foldl (fun t uid => dpop t uid) s.tasks
  let meta := dget s.parentMeta parentKey
  let pm1 := dpop s.parentMeta parentKey
  let tasks2 :=
    match meta with
    | some m => if truthyS m.parentUid then dpop tasks1 (m.parentUid.getD "") else tasks1
    | none => tasks1
  { s with tasks := tasks2, parentChildren := pc1, parentMeta := pm1 }

/-- `remove_missing_calendar_events`: prune calendar-sourced subtrees whose
key was not observed; returns the new state and the removal count. -/
def removeMissingCalendarEvents (s : ManagerState) (valid : List String) :
    ManagerState × Nat :=
  let toRemove := (dkeys s.parentMeta).filter
    (fun key => strStartsWith key "calendar:" && !(valid.contains key))
  (toRemove.foldl removeParent s, toRemove.length)

/-- The statuses of the children of `parentKey` that are present in
`tasks` (the list comprehension in `_derive_parent_status_from_children`). -/
def childStatuses (tasks : Dict StoredTask) (pc : Dict (List String))
    (parentKey : String) : List TodoStatus :=
  ((dget pc parentKey).getD []).filterMap
    (fun uid => (dget tasks uid).map (fun st => st.item.status))

/-- `_derive_parent_status_from_children`. -/
def deriveParentStatusFromChildren (tasks : Dict StoredTask)
    (pc : Dict (List String)) (parentUid : String) : TodoStatus :=
  match dget tasks parentUid with
  | none => .needsAction
  | some parentTask =>
    let children := childStatuses tasks pc parentTask.parentKey
    if children = [] then .needsAction
    else if children.all (fun c => c == .completed) then .completed
    else if children.any (fun c => c == .inProgress) then .inProgress
    else if children.any (fun c => c == .completed) then .inProgress
    else .needsAction

/-- Body of the loop `async_update_item` runs when a parent transitions to
COMPLETED: force the child's status to COMPLETED.  (Where the source would
raise `KeyError` on a child uid missing from `_tasks`, the model leaves
that uid alone; the path is unreachable when the child index only holds
live uids.) -/
def setChildCompleted (t : Dict StoredTask) (cuid : String) : Dict StoredTask :=
  match dget t cuid with
  | some child =>
      dset t cuid { child with item := { child.item with status := .completed } }
  | none => t

/-- Body of the loop `async_update_item` runs when a parent transitions to
NEEDS_ACTION: demote a COMPLETED child back to NEEDS_ACTION, leave other
children untouched. -/
def reopenChild (t : Dict StoredTask) (cuid : String) : Dict StoredTask :=
  match dget t cuid with
  | some child =>
      if child.item.status = .completed then
        dset t cuid { child with item := { child.item with status := .needsAction } }
      else t
  | none => t

/-- `async_update_item`: only the incoming item's `uid` and `status` feed
the mutation. -/
def updateItem (s : ManagerState) (uid : String) (status : Option TodoStatus) :
    ManagerState :=
  match dget s.tasks uid with
  | none => s
  | some stored =>
    let newStatus := status.getD .needsAction
    let tasks1 := dset s.tasks uid
      { stored with item := { stored.item with status := newStatus } }
    if stored.isParent then
      if newStatus = .completed then
        let tasks2 :=
          ((dget s.parentChildren stored.parentKey).getD []).foldl setChildCompleted tasks1
        { s with tasks := tasks2 }
      else if newStatus = .needsAction then
        let tasks2 :=
          ((dget s.parentChildren stored.parentKey).getD []).foldl reopenChild tasks1
        { s with tasks := tasks2 }
      else { s with tasks := tasks1 }
    else
      let parentRef := stored.item.extraParentUid
      if truthyS parentRef then
        match dget tasks1 (parentRef.getD "") with
        | some parent =>
            let st := deriveParentStatusFromChildren tasks1 s.parentChildren (parentRef.getD "")
            let parent1 := { parent with item := { parent.item with status := st } }
            { s with tasks := dset tasks1 (parentRef.getD "") parent1 }
        | none => { s with tasks := tasks1 }
      else { s with tasks := tasks1 }

/-- `async_delete_item`. -/
def deleteItem (s : ManagerState) (uid : String) : ManagerState :=
  match dget s.tasks uid with
  | none => s
  | some stored =>
    if stored.isParent then removeParent s stored.parentKey
    else
      let tasks1 := dpop s.tasks uid
      let pc1 :=
        match dget s.parentChildren stored.parentKey with
        | some children =>
            if uid ∈ children then
              dset s.parentChildren stored.parentKey (children.filter (fun c => !(c == uid)))
            else s.parentChildren
        | none => s.parentChildren
      let parentRef := stored.item.extraParentUid
      if truthyS parentRef then
        match dget tasks1 (parentRef.getD "") with
        | some parent =>
            let st := deriveParentStatusFromChildren tasks1 pc1 (parentRef.getD "")
            let parent1 := { parent with item := { parent.item with status := st } }
            { s with tasks := dset tasks1 (parentRef.getD "") parent1, parentChildren := pc1 }
        | none => { s with tasks := tasks1, parentChildren := pc1 }
      else { s with tasks := tasks1, parentChildren := pc1 }

/-- Model of `datetime.max.replace(tzinfo=UTC)`, the sentinel in
`_todo_sort_key`: the largest representable datetime (9999-12-31
23:59:59.999999 UTC) as epoch microseconds. -/
def dtMaxUtc : Nat := 253402300799999999

/-- Python `str.lower()` (restricted to the ASCII range, as `Char.toLower`). -/
def lowerStr (s : String) : String := String.mk (s.data.map Char.toLower)

/-- `_todo_sort_key`. -/
def todoSortKey (i : TodoItemL) : Nat × String := (i.due.getD dtMaxUtc, lowerStr i.summary)

/-- Sort order on items: lexicographic comparison of `_todo_sort_key`,
as Python compares key tuples. -/
def keyLE (a b : TodoItemL) : Prop :=
  (todoSortKey a).1 < (todoSortKey b).1 ∨
    ((todoSortKey a).1 = (todoSortKey b).1
      ∧ strLE (todoSortKey a).2 (todoSortKey b).2 = true)

instance : DecidableRel keyLE := fun _a _b =>
  inferInstanceAs (Decidable (_ ∨ _))

/-- `iter_items`: Python's stable `list.sort(key=_todo_sort_key)` over
`_tasks.values()`, modelled as insertion sort by the same key (insertion
sort is stable, so it computes the same list as the source's sort). -/
def iterItems (s : ManagerState) : List TodoItemL :=
  List.insertionSort keyLE (s.tasks.map (fun kv => kv.2.item))

/-- Python `str(...)` of a datetime or date, as used in the fallback uid of
`_make_parent_key` (an injective rendering; its exact shape is immaterial). -/
def timeStr : EventTime → String
  | .dt t => "dt:" ++ toString t
  | .allday d => "date:" ++ toString d

/-- `MentalLoadCoordinator._make_parent_key`. -/
def makeParentKey (calendarId : String) (e : CalendarEvent) : String :=
  let uid :=
    if truthyS e.uid then e.uid.getD ""
    else timeStr e.start ++ "_" ++ timeStr e.stop ++ "_" ++ e.summary
  "calendar:" ++ calendarId ++ ":" ++ uid

/-- The inner event loop of `_async_update_data` for one calendar:
threads the manager state, the observed key set (as a list) and the
Planning Port call count. -/
def processEvents (planner : CalendarEvent → PlannedResponse) (calendarId : String) :
    List CalendarEvent → ManagerState → List String → Nat →
    ManagerState × List String × Nat
  | [], s, observed, calls => (s, observed, calls)
  | e :: rest, s, observed, calls =>
    let key := makeParentKey calendarId e
    let r := processCalendarEvent planner s key e
    processEvents planner calendarId rest r.1 (observed ++ [key]) (calls + r.2.2)

/-- The calendar loop of `_async_update_data`: each calendar's fetch
outcome is supplied as data (`.error` models `async_get_events` raising).
A failed fetch raises `UpdateFailed`, aborting the cycle (the prune step
included); the Bool result records whether the cycle completed. -/
def runCycleFrom (planner : CalendarEvent → PlannedResponse) :
    List (String × Except Unit (List CalendarEvent)) → ManagerState →
    List String → Nat → ManagerState × Nat × Bool
  | [], s, observed, calls =>
    ((removeMissingCalendarEvents s observed).1, calls, true)
  | (_, .error _) :: _, s, _, calls => (s, calls, false)
  | (calendarId, .ok evs) :: rest, s, observed, calls =>
    let r := processEvents planner calendarId evs s observed calls
    runCycleFrom planner rest r.1 r.2.1 r.2.2

/-- `_async_update_data`: with no calendars configured the method returns
before doing anything (no prune); otherwise it runs the calendar loop and
then prunes. -/
def runCycle (planner : CalendarEvent → PlannedResponse)
    (cals : List (String × Except Unit (List CalendarEvent)))
    (s : ManagerState) : ManagerState × Nat × Bool :=
  if cals.isEmpty then (s, 0, true) else runCycleFrom planner cals s [] 0

/-- The spec's parent-status derivation rule (section 4.3), written from
the spec's words: five rules evaluated top to bottom, first match wins. -/
def specDeriveStatus (children : List TodoStatus) : TodoStatus :=
  if children = [] then .needsAction
  else if ∀ c ∈ children, c = .completed then .completed
  else if ∃ c ∈ children, c = .inProgress then .inProgress
  else if ∃ c ∈ children, c = .completed then .inProgress
  else .needsAction

/-- The event stream a cycle processes, flattened to `(calendar_id, event)`
pairs in processing order (failed fetches contribute nothing). -/
def calPairs : List (String × Except Unit (List CalendarEvent)) →
    List (String × CalendarEvent)
  | [] => []
  | (cid, Except.ok evs) :: rest => evs.map (fun e => (cid, e)) ++ calPairs rest
  | (_, Except.error _) :: rest => calPairs rest

/-- The parent keys a stream of `(calendar_id, event)` pairs observes. -/
def observedKeys (l : List (String × CalendarEvent)) : List String :=
  l.map (fun p => makeParentKey p.1 p.2)

/-- Processing a flat stream of `(calendar_id, event)` pairs: the state
after all `async_process_calendar_event` calls plus the number of Planning
Port calls made. -/
def processAllPairs (planner : CalendarEvent → PlannedResponse) :
    List (String × CalendarEvent) → ManagerState → ManagerState × Nat
  | [], s => (s, 0)
  | (cid, e) :: rest, s =>
      let r := processCalendarEvent planner s (makeParentKey cid e) e
      let r2 := processAllPairs planner rest r.1
      (r2.1, r.2.2 + r2.2)

/-- The summary `_replace_parent_tasks` gives the new parent task:
the cached intent title, with a fallback literal. -/
def parentSummaryOf (s : ManagerState) (parentKey : String) : String :=
  let meta := (dget s.parentMeta parentKey).getD {}
  if truthyS meta.summary then meta.summary.getD "" else "Mental Load Aufgabe"

/-- The cached source tag for a parent key. -/
def parentSourceOf (s : ManagerState) (parentKey : String) : Option String :=
  ((dget s.parentMeta parentKey).getD {}).source

/-- All stored parent tasks for a given parent key. -/
def parentsFor (s : ManagerState) (key : String) : Dict StoredTask :=
  s.tasks.filter (fun kv => kv.2.parentKey == key && kv.2.isParent)

/-! ### Concrete data used by counterexamples and witnesses -/

/-- A plan with a single subtask, as a Planning Port could return it. -/
def exPlanOne : PlannedResponse := ⟨[{ title := "step1" }], some "hoch", some "note"⟩

/-- A Planning Port that always returns `exPlanOne`. -/
def exPlanner : CalendarEvent → PlannedResponse := fun _ => exPlanOne

/-- A calendar event. -/
def exEventA : CalendarEvent := ⟨some "u1", "Party", none, .dt 100, .dt 200⟩

/-- The same event with its description edited (same uid, new signature). -/
def exEventB : CalendarEvent := ⟨some "u1", "Party", some "bring cake", .dt 100, .dt 200⟩

/-- The parent key the coordinator derives for `exEventA`/`exEventB` on
calendar `c`. -/
def exKey : String := "calendar:c:u1"

/-- State after installing a plan for `exEventA`. -/
def exS1 : ManagerState := (processCalendarEvent exPlanner emptyState exKey exEventA).1

/-- State after the changed event `exEventB` triggers a replacement. -/
def exS2 : ManagerState := (processCalendarEvent exPlanner exS1 exKey exEventB).1

/-- State after the prune step of a cycle that no longer observes `exKey`. -/
def exS3 : ManagerState := (removeMissingCalendarEvents exS2 []).1

/-- One calendar returning the same uid twice with different descriptions:
both events map to the same parent key with different signatures. -/
def exDupCals : List (String × Except Unit (List CalendarEvent)) :=
  [("c", Except.ok [exEventA, exEventB])]

/-- Two calendars, each returning one event; the two parent keys differ. -/
def exOkCals : List (String × Except Unit (List CalendarEvent)) :=
  [("c", Except.ok [exEventA]), ("d", Except.ok [exEventB])]

/-- Two calendar sources: the first fails to fetch, the second has one
event. -/
def exMixCals : List (String × Except Unit (List CalendarEvent)) :=
  [("bad", Except.error ()), ("good", Except.ok [exEventA])]

/-- Item with no due value, summary "A". -/
def exItemA : TodoItemL := ⟨"a", "A", none, .needsAction, none, none, none, none⟩

/-- Item due 2024-01-03, summary "B". -/
def exItemB : TodoItemL := ⟨"b", "B", none, .needsAction, some 20240103, none, none, none⟩

/-- Item due 2024-01-01, summary "C". -/
def exItemC : TodoItemL := ⟨"c", "C", none, .needsAction, some 20240101, none, none, none⟩

/-- Item whose due is exactly `datetime.max` (UTC), summary "z". -/
def exItemZ : TodoItemL := ⟨"z", "z", none, .needsAction, some dtMaxUtc, none, none, none⟩

/-- Store holding the ordering example's three items. -/
def exStoreOrder : ManagerState :=
  ⟨[("b", ⟨exItemB, "k", true⟩), ("a", ⟨exItemA, "k", true⟩), ("c", ⟨exItemC, "k", true⟩)],
   [], [], [], 0⟩

/-- Store holding a no-due item and an item due `datetime.max`. -/
def exStoreMax : ManagerState :=
  ⟨[("z", ⟨exItemZ, "k", true⟩), ("a", ⟨exItemA, "k", true⟩)], [], [], [], 0⟩

/-- The value `reopenChild` leaves for a child with current status `c`. -/
def reopenedStatus (c : TodoStatus) : TodoStatus :=
  if c = TodoStatus.completed then TodoStatus.needsAction else c

/-- A parent item used by witness states. -/
def exParentItem : TodoItemL := ⟨"p", "P", none, .inProgress, none, none, none, none⟩

/-- Child of `exParentItem`, NEEDS_ACTION. -/
def exChild1 : TodoItemL := ⟨"c1", "P: x", none, .needsAction, none, none, some "p", none⟩

/-- Child of `exParentItem`, IN_PROGRESS. -/
def exChild2 : TodoItemL := ⟨"c2", "P: y", none, .inProgress, none, none, some "p", none⟩

/-- Child of `exParentItem`, COMPLETED. -/
def exChild3 : TodoItemL := ⟨"c3", "P: z", none, .completed, none, none, some "p", none⟩

/-- A store with one parent and three children in mixed statuses. -/
def exStateFam : ManagerState :=
  ⟨[("p", ⟨exParentItem, "k", true⟩), ("c1", ⟨exChild1, "k", false⟩),
    ("c2", ⟨exChild2, "k", false⟩), ("c3", ⟨exChild3, "k", false⟩)],
   [("k", ["c1", "c2", "c3"])], [], [], 0⟩

/-! ### Dictionary lemmas -/

theorem dget_dset_self {α : Type} (d : Dict α) (k : String) (v : α) :
    dget (dset d k v) k = some v := by
  induction d with
  | nil => simp [dset, dget]
  | cons hd tl ih =>
      obtain ⟨k0, v0⟩ := hd
      by_cases h : k0 = k <;> simp [dset, dget, h, ih]

theorem dget_dset_ne {α : Type} (d : Dict α) (k : String) (v : α) (k' : String)
    (h : k ≠ k') : dget (dset d k v) k' = dget d k' := by
  induction d with
  | nil => simp [dset, dget, h]
  | cons hd tl ih =>
      obtain ⟨k0, v0⟩ := hd
      by_cases h0 : k0 = k
      · subst h0; simp [dset, dget, h]
      · simp [dset, dget, h0, ih]

theorem dget_dpop {α : Type} (d : Dict α) (k k' : String) :
    dget (dpop d k) k' = if k = k' then none else dget d k' := by
  induction d with
  | nil => simp [dpop, dget]
  | cons hd tl ih =>
      obtain ⟨k0, v0⟩ := hd
      by_cases h0 : k0 = k
      · subst h0
        have e1 : dpop ((k0, v0) :: tl) k0 = dpop tl k0 := by simp [dpop]
        rw [e1, ih]
        by_cases h1 : k0 = k' <;> simp [h1, dget]
      · have e1 : dpop ((k0, v0) :: tl) k = (k0, v0) :: dpop tl k := by simp [dpop, h0]
        rw [e1]
        by_cases h1 : k0 = k'
        · subst h1
          have hk : ¬ k = k0 := fun h => h0 h.symm
          simp [dget, hk]
        · have e2 : dget ((k0, v0) :: dpop tl k) k' = dget (dpop tl k) k' := by
            simp [dget, h1]
          have e3 : dget ((k0, v0) :: tl) k' = dget tl k' := by simp [dget, h1]
          rw [e2, ih, e3]

theorem dget_foldl_dpop {α : Type} (l : List String) (d : Dict α) (k : String) :
    dget (l.foldl (fun t u => dpop t u) d) k = if k ∈ l then none else dget d k := by
  induction l generalizing d with
  | nil => simp
  | cons hd tl ih =>
      simp only [List.foldl_cons, ih, dget_dpop]
      by_cases h1 : k ∈ tl
      · simp [h1]
      · by_cases h2 : hd = k
        · subst h2; simp [h1]
        · have : ¬ k = hd := fun h => h2 h.symm
          simp [h1, h2, this, List.mem_cons]

theorem dkeys_dpop {α : Type} (d : Dict α) (k : String) :
    dkeys (dpop d k) = (dkeys d).filter (fun x => !(x == k)) := by
  induction d with
  | nil => rfl
  | cons hd tl ih =>
      obtain ⟨k0, v0⟩ := hd
      by_cases h0 : k0 = k
      · subst h0
        have e1 : dpop ((k0, v0) :: tl) k0 = dpop tl k0 := by simp [dpop]
        rw [e1, ih]
        simp [dkeys]
      · have e1 : dpop ((k0, v0) :: tl) k = (k0, v0) :: dpop tl k := by simp [dpop, h0]
        rw [e1]
        simp only [dkeys] at ih ⊢
        simp [h0, ih]

theorem dkeys_dpop_mem {α : Type} (d : Dict α) (k k' : String) :
    k' ∈ dkeys (dpop d k) ↔ k' ∈ dkeys d ∧ k' ≠ k := by
  rw [dkeys_dpop]
  simp [List.mem_filter]

/-- Distinct uuid draws give distinct uids. -/
theorem genUid_inj {m n : Nat} (h : genUid m = genUid n) : m = n := by
  have h1 := congrArg (fun s : String => s.data.length) h
  simpa [genUid] using h1

theorem truthyS_some {s : String} (h : s ≠ "") : truthyS (some s) = true := by
  simp [truthyS, h]

/-! ### The status derivation rule: the code's chain equals the spec's -/

theorem codeDerive_eq_spec (cs : List TodoStatus) :
    (if cs = [] then TodoStatus.needsAction
     else if cs.all (fun c => c == TodoStatus.completed) then TodoStatus.completed
     else if cs.any (fun c => c == TodoStatus.inProgress) then TodoStatus.inProgress
     else if cs.any (fun c => c == TodoStatus.completed) then TodoStatus.inProgress
     else TodoStatus.needsAction) = specDeriveStatus cs := by
  unfold specDeriveStatus
  by_cases h1 : cs = []
  · simp [h1]
  · by_cases h2 : ∀ c ∈ cs, c = TodoStatus.completed
    · simp [h1, h2, List.all_eq_true]
    · by_cases h3 : ∃ c ∈ cs, c = TodoStatus.inProgress
      · simp [h1, h2, h3, List.all_eq_true, List.any_eq_true]
      · by_cases h4 : ∃ c ∈ cs, c = TodoStatus.completed
        · simp [h1, h2, h3, h4, List.all_eq_true, List.any_eq_true]
        · simp [h1, h2, h3, h4, List.all_eq_true, List.any_eq_true]

theorem deriveFromChildren_eq_spec (tasks : Dict StoredTask)
    (pc : Dict (List String)) (puid : String) (pt : StoredTask)
    (h : dget tasks puid = some pt) :
    deriveParentStatusFromChildren tasks pc puid
      = specDeriveStatus (childStatuses tasks pc pt.parentKey) := by
  unfold deriveParentStatusFromChildren
  rw [h]
  exact codeDerive_eq_spec _

/-! ### Lemmas about the parent-to-child propagation loops -/

theorem setChildCompleted_isSome (t : Dict StoredTask) (c x : String)
    (h : (dget t x).isSome) : (dget (setChildCompleted t c) x).isSome := by
  unfold setChildCompleted
  cases hdg : dget t c with
  | none => exact h
  | some child =>
      by_cases hx : c = x
      · subst hx; simp [dget_dset_self]
      · rw [dget_dset_ne _ _ _ _ hx]; exact h

theorem foldl_setChildCompleted_not_mem (l : List String) (t : Dict StoredTask)
    (x : String) (hx : x ∉ l) :
    dget (l.foldl setChildCompleted t) x = dget t x := by
  induction l generalizing t with
  | nil => rfl
  | cons hd tl ih =>
      have hxtl : x ∉ tl := fun h => hx (List.mem_cons_of_mem _ h)
      have hxhd : x ≠ hd := fun h => hx (h ▸ List.mem_cons_self hd tl)
      simp only [List.foldl_cons]
      rw [ih _ hxtl]
      unfold setChildCompleted
      cases hdg : dget t hd with
      | none => rfl
      | some child => exact dget_dset_ne _ _ _ _ (fun h => hxhd h.symm)

theorem foldl_setChildCompleted_mem (l : List String) (t : Dict StoredTask)
    (x : String) (hx : x ∈ l) (hsome : (dget t x).isSome) :
    (dget (l.foldl setChildCompleted t) x).map (fun st => st.item.status)
      = some TodoStatus.completed := by
  induction l generalizing t with
  | nil => cases hx
  | cons hd tl ih =>
      simp only [List.foldl_cons]
      by_cases hmem : x ∈ tl
      · exact ih _ hmem (setChildCompleted_isSome t hd x hsome)
      · have hxhd : x = hd := by
          rcases List.mem_cons.mp hx with h | h
          · exact h
          · exact absurd h hmem
        subst hxhd
        rw [foldl_setChildCompleted_not_mem tl _ x hmem]
        unfold setChildCompleted
        cases hdg : dget t x with
        | none => rw [hdg] at hsome; cases hsome
        | some child => simp [dget_dset_self]

theorem reopenChild_none (t : Dict StoredTask) (c : String)
    (h : dget t c = none) : reopenChild t c = t := by
  simp [reopenChild, h]

theorem reopenChild_completed (t : Dict StoredTask) (c : String)
    (child : StoredTask) (h : dget t c = some child)
    (hc : child.item.status = TodoStatus.completed) :
    reopenChild t c
      = dset t c { child with item := { child.item with status := TodoStatus.needsAction } } := by
  simp [reopenChild, h, hc]

theorem reopenChild_skip (t : Dict StoredTask) (c : String)
    (child : StoredTask) (h : dget t c = some child)
    (hc : ¬ child.item.status = TodoStatus.completed) :
    reopenChild t c = t := by
  simp [reopenChild, h, hc]

theorem foldl_reopenChild_not_mem (l : List String) (t : Dict StoredTask)
    (x : String) (hx : x ∉ l) :
    dget (l.foldl reopenChild t) x = dget t x := by
  induction l generalizing t with
  | nil => rfl
  | cons hd tl ih =>
      have hxtl : x ∉ tl := fun h => hx (List.mem_cons_of_mem _ h)
      have hxhd : x ≠ hd := fun h => hx (h ▸ List.mem_cons_self hd tl)
      simp only [List.foldl_cons]
      rw [ih _ hxtl]
      cases hdg : dget t hd with
      | none => rw [reopenChild_none t hd hdg]
      | some child =>
          by_cases hc : child.item.status = TodoStatus.completed
          · rw [reopenChild_completed t hd child hdg hc]
            exact dget_dset_ne _ _ _ _ (fun h => hxhd h.symm)
          · rw [reopenChild_skip t hd child hdg hc]

theorem foldl_reopenChild_mem (l : List String) (t : Dict StoredTask)
    (x : String) (hx : x ∈ l) (cst : StoredTask) (hdg : dget t x = some cst) :
    (dget (l.foldl reopenChild t) x).map (fun st => st.item.status)
      = some (reopenedStatus cst.item.status) := by
  induction l generalizing t cst with
  | nil => cases hx
  | cons hd tl ih =>
      simp only [List.foldl_cons]
      by_cases hmem : x ∈ tl
      · by_cases hxhd : hd = x
        · subst hxhd
          by_cases hc : cst.item.status = TodoStatus.completed
          · rw [reopenChild_completed t hd cst hdg hc]
            have h2 := ih _ hmem _ (dget_dset_self t hd
              ({ cst with item := { cst.item with status := TodoStatus.needsAction } }))
            rw [h2]
            simp [reopenedStatus, hc]
          · rw [reopenChild_skip t hd cst hdg hc]
            exact ih _ hmem _ hdg
        · have e1 : dget (reopenChild t hd) x = some cst := by
            cases hdg2 : dget t hd with
            | none => rw [reopenChild_none t hd hdg2]; exact hdg
            | some child =>
                by_cases hc : child.item.status = TodoStatus.completed
                · rw [reopenChild_completed t hd child hdg2 hc,
                      dget_dset_ne _ _ _ _ hxhd]
                  exact hdg
                · rw [reopenChild_skip t hd child hdg2 hc]; exact hdg
          exact ih _ hmem _ e1
      · have hxhd : x = hd := by
          rcases List.mem_cons.mp hx with h | h
          · exact h
          · exact absurd h hmem
        subst hxhd
        rw [foldl_reopenChild_not_mem tl _ x hmem]
        by_cases hc : cst.item.status = TodoStatus.completed
        · rw [reopenChild_completed t x cst hdg hc]
          simp [dget_dset_self, reopenedStatus, hc]
        · rw [reopenChild_skip t x cst hdg hc]
          simp [hdg, reopenedStatus, hc]

theorem childStatuses_dset_not_mem (tasks : Dict StoredTask)
    (pc : Dict (List String)) (key u : String) (v : StoredTask)
    (hu : u ∉ (dget pc key).getD []) :
    childStatuses (dset tasks u v) pc key = childStatuses tasks pc key := by
  unfold childStatuses
  apply List.filterMap_congr
  intro x hx
  have hxu : u ≠ x := fun h => hu (h ▸ hx)
  rw [dget_dset_ne _ _ _ _ hxu]

/-! ### C2: child edit derives the parent status by the five-rule function -/

/-- C2: for every status edit on a child task via `update_item`, the parent
task's resulting status equals the pure derivation function of the current
child statuses (no children: NEEDS_ACTION; all COMPLETED: COMPLETED; any
IN_PROGRESS: IN_PROGRESS; any COMPLETED: IN_PROGRESS; else NEEDS_ACTION),
evaluated top to bottom with the first match winning. -/
theorem C2_child_edit_derives_parent_status
    (s : ManagerState) (uid : String) (newStatus : Option TodoStatus)
    (st : StoredTask) (hst : dget s.tasks uid = some st)
    (hchild : st.isParent = false)
    (p : String) (href : st.item.extraParentUid = some p) (hp : p ≠ "")
    (pt : StoredTask) (hpt : dget s.tasks p = some pt)
    (hnc : p ∉ (dget s.parentChildren pt.parentKey).getD []) :
    (dget (updateItem s uid newStatus).tasks p).map (fun t => t.item.status)
      = some (specDeriveStatus
          (childStatuses (updateItem s uid newStatus).tasks
            (updateItem s uid newStatus).parentChildren pt.parentKey)) := by
  have hts : truthyS st.item.extraParentUid = true := by rw [href]; exact truthyS_some hp
  have hgd : st.item.extraParentUid.getD "" = p := by rw [href]; rfl
  unfold updateItem
  rw [hst]
  dsimp only
  rw [if_neg (show ¬ st.isParent = true by simp [hchild])]
  rw [if_pos hts, hgd]
  by_cases hup : uid = p
  · subst hup
    have hpteq : pt = st := by
      rw [hst] at hpt
      exact (Option.some.inj hpt).symm
    have h1 := dget_dset_self s.tasks uid
      ({ st with item := { st.item with status := newStatus.getD .needsAction } })
    rw [h1]
    dsimp only
    rw [dget_dset_self]
    rw [childStatuses_dset_not_mem _ _ _ _ _ hnc]
    rw [deriveFromChildren_eq_spec _ s.parentChildren uid _ h1]
    rw [hpteq]
    rfl
  · have h1 : dget (dset s.tasks uid
        ({ st with item := { st.item with status := newStatus.getD .needsAction } })) p
        = some pt := by
      rw [dget_dset_ne _ _ _ _ hup]
      exact hpt
    rw [h1]
    dsimp only
    rw [dget_dset_self]
    rw [childStatuses_dset_not_mem _ _ _ _ _ hnc]
    rw [deriveFromChildren_eq_spec _ s.parentChildren p _ h1]
    rfl

/-- Witness for C2 at a concrete store: completing child `c1` of parent `p`. -/
theorem C2_child_edit_derives_parent_status_witness :
    (dget (updateItem exStateFam "c1" (some TodoStatus.completed)).tasks "p").map
        (fun t => t.item.status)
      = some (specDeriveStatus
          (childStatuses (updateItem exStateFam "c1" (some TodoStatus.completed)).tasks
            (updateItem exStateFam "c1" (some TodoStatus.completed)).parentChildren "k")) :=
  C2_child_edit_derives_parent_status exStateFam "c1" (some TodoStatus.completed)
    ⟨exChild1, "k", false⟩ (by decide) rfl "p" rfl (by decide)
    ⟨exParentItem, "k", true⟩ (by decide) (by decide)

/-! ### C3: parent status edits propagate to children -/

/-- C3: `update_item` on a parent task with new status COMPLETED forces
every child to COMPLETED; with new status NEEDS_ACTION it demotes every
COMPLETED child to NEEDS_ACTION and leaves IN_PROGRESS (and NEEDS_ACTION)
children untouched. -/
theorem C3_parent_status_propagates_to_children
    (s : ManagerState) (uid : String) (st : StoredTask)
    (hst : dget s.tasks uid = some st) (hpar : st.isParent = true)
    (cuid : String) (hc : cuid ∈ (dget s.parentChildren st.parentKey).getD [])
    (hne : cuid ≠ uid) (cst : StoredTask) (hcst : dget s.tasks cuid = some cst) :
    ((dget (updateItem s uid (some TodoStatus.completed)).tasks cuid).map
        (fun t => t.item.status) = some TodoStatus.completed)
    ∧ ((dget (updateItem s uid (some TodoStatus.needsAction)).tasks cuid).map
        (fun t => t.item.status)
      = some (if cst.item.status = TodoStatus.completed then TodoStatus.needsAction
              else cst.item.status)) := by
  have hne' : uid ≠ cuid := fun h => hne h.symm
  constructor
  · unfold updateItem
    rw [hst]
    dsimp only
    rw [if_pos hpar]
    rw [if_pos (show (some TodoStatus.completed).getD TodoStatus.needsAction
        = TodoStatus.completed from rfl)]
    apply foldl_setChildCompleted_mem _ _ _ hc
    rw [dget_dset_ne _ _ _ _ hne', hcst]
    rfl
  · unfold updateItem
    rw [hst]
    dsimp only
    rw [if_pos hpar]
    rw [if_neg (show ¬ (some TodoStatus.needsAction).getD TodoStatus.needsAction
        = TodoStatus.completed by decide)]
    rw [if_pos (show (some TodoStatus.needsAction).getD TodoStatus.needsAction
        = TodoStatus.needsAction from rfl)]
    have h1 : dget (dset s.tasks uid
        ({ st with item := { st.item with
            status := (some TodoStatus.needsAction).getD TodoStatus.needsAction } })) cuid
        = some cst := by
      rw [dget_dset_ne _ _ _ _ hne']
      exact hcst
    have h2 := foldl_reopenChild_mem _ _ _ hc cst h1
    rw [h2]
    rfl

/-- Witness for C3: completing then reopening parent `p` acts on its
COMPLETED child `c3` as claimed. -/
theorem C3_parent_status_propagates_to_children_witness :
    ((dget (updateItem exStateFam "p" (some TodoStatus.completed)).tasks "c3").map
        (fun t => t.item.status) = some TodoStatus.completed)
    ∧ ((dget (updateItem exStateFam "p" (some TodoStatus.needsAction)).tasks "c3").map
        (fun t => t.item.status)
      = some (if exChild3.status = TodoStatus.completed then TodoStatus.needsAction
              else exChild3.status)) :=
  C3_parent_status_propagates_to_children exStateFam "p"
    ⟨exParentItem, "k", true⟩ (by decide) rfl "c3" (by decide) (by decide)
    ⟨exChild3, "k", false⟩ (by decide)

/-! ### C10: a child edit touches only the child and its parent -/

/-- C10: an `update_item` call on a child task changes at most that child's
entry and the task named by its parent-uid attribute; every other task's
stored entry, and all other indexes of the store, are unchanged. -/
theorem C10_child_edit_frame
    (s : ManagerState) (uid : String) (newStatus : Option TodoStatus)
    (st : StoredTask) (hst : dget s.tasks uid = some st) (hchild : st.isParent = false)
    (v : String) (hvu : v ≠ uid)
    (hvp : ∀ q, st.item.extraParentUid = some q → v ≠ q) :
    dget (updateItem s uid newStatus).tasks v = dget s.tasks v
    ∧ (updateItem s uid newStatus).parentChildren = s.parentChildren
    ∧ (updateItem s uid newStatus).parentMeta = s.parentMeta
    ∧ (updateItem s uid newStatus).eventSignatures = s.eventSignatures := by
  unfold updateItem
  rw [hst]
  dsimp only
  rw [if_neg (show ¬ st.isParent = true by simp [hchild])]
  by_cases htr : truthyS st.item.extraParentUid = true
  · rw [if_pos htr]
    have hq : v ≠ st.item.extraParentUid.getD "" := by
      cases href : st.item.extraParentUid with
      | none => rw [href] at htr; simp [truthyS] at htr
      | some q => exact hvp q href
    split
    · refine ⟨?_, rfl, rfl, rfl⟩
      rw [dget_dset_ne _ _ _ _ (fun h => hq h.symm),
          dget_dset_ne _ _ _ _ (fun h => hvu h.symm)]
    · refine ⟨?_, rfl, rfl, rfl⟩
      exact dget_dset_ne _ _ _ _ (fun h => hvu h.symm)
  · rw [if_neg htr]
    refine ⟨?_, rfl, rfl, rfl⟩
    exact dget_dset_ne _ _ _ _ (fun h => hvu h.symm)

/-- Witness for C10: editing child `c1` leaves sibling `c2` untouched. -/
theorem C10_child_edit_frame_witness :
    dget (updateItem exStateFam "c1" (some TodoStatus.completed)).tasks "c2"
      = dget exStateFam.tasks "c2"
    ∧ (updateItem exStateFam "c1" (some TodoStatus.completed)).parentChildren
      = exStateFam.parentChildren
    ∧ (updateItem exStateFam "c1" (some TodoStatus.completed)).parentMeta
      = exStateFam.parentMeta
    ∧ (updateItem exStateFam "c1" (some TodoStatus.completed)).eventSignatures
      = exStateFam.eventSignatures :=
  C10_child_edit_frame exStateFam "c1" (some TodoStatus.completed)
    ⟨exChild1, "k", false⟩ (by decide) rfl "c2" (by decide)
    (fun q hq => by
      have : q = "p" := by
        have := hq
        simp [exChild1] at this
        exact this.symm
      simp [this])

/-! ### C1: the old parent task survives a plan replacement (code bug) -/

/-- C1 (code bug): after installing a plan for a calendar event and then
re-installing because the event's description changed (two
`_replace_parent_tasks` calls for the same parent key), the store holds
TWO parent tasks for that key: `_replace_parent_tasks` pops the previous
plan's children out of `_tasks` but never deletes the previous parent
task's uid, so invariant I2 ("exactly one parent task per key") fails
after the second installation. -/
theorem C1_second_replace_leaves_two_parents :
    (parentsFor exS1 exKey).length = 1 ∧ (parentsFor exS2 exKey).length = 2 := by
  decide

/-! ### C8: pruning does not fully remove a replaced subtree (code bug) -/

/-- C8 (code bug): prune a key whose subtree had been replaced once.  The
prune step removes the current parent, its children and the
`_parent_children` / `_parent_meta` entries, but the first-generation
parent task leaked by `_replace_parent_tasks` is still in the store
afterwards, and the recorded `_event_signatures` entry for the key also
survives - so the subtree is not fully removed as the claim states. -/
theorem C8_prune_leaves_stale_parent_and_signature :
    (removeMissingCalendarEvents exS2 []).2 = 1
    ∧ (parentsFor exS3 exKey).length = 1
    ∧ dget exS3.parentMeta exKey = none
    ∧ dget exS3.parentChildren exKey = none
    ∧ dget exS3.eventSignatures exKey = some (eventSignature exEventB) := by
  decide

/-! ### C6: the effort line format (corrected) -/

/-- C6 (counterexample): for a planned task whose only optional field is
`effort = "hoch"`, the child description the code builds is
`"Mental Load: hoch"`, not the `"effort: hoch"` line the claim states. -/
theorem C6_effort_line_counterexample :
    childDescription ⟨"T", none, none, some "hoch", none, none⟩
      = some "Mental Load: hoch"
    ∧ childDescription ⟨"T", none, none, some "hoch", none, none⟩
      ≠ some "effort: hoch" := by
  decide

/-! ### C7: signature sensitivity (corrected) -/

/-- C7 (counterexample): two events identical except in their description
(absent vs present-but-empty) have EQUAL signatures, because both
descriptions serialize to the empty string. -/
theorem C7_description_collision :
    eventSignature ⟨some "u", "s", none, .dt 1, .dt 2⟩
      = eventSignature ⟨some "u", "s", some "", .dt 1, .dt 2⟩
    ∧ (⟨some "u", "s", none, .dt 1, .dt 2⟩ : CalendarEvent).description
      ≠ (⟨some "u", "s", some "", .dt 1, .dt 2⟩ : CalendarEvent).description := by
  decide

/-! ### C5: a calendar fetch failure aborts the cycle (corrected) -/

/-- C5 (counterexample): with two calendar sources where the first fails to
fetch and the second has one event, the cycle raises immediately: the
second source's event is never processed (no Planning Port call, no
signature recorded, no task installed) and the cycle reports failure -
contradicting the claim that remaining sources are still processed. -/
theorem C5_failure_skips_remaining_sources :
    runCycle exPlanner exMixCals emptyState = (emptyState, 0, false) := by
  decide

/-! ### C9: ordering of `list_items` (corrected at the sentinel) -/

/-- C9 (counterexample): a store holding a task with no due (summary "A")
and a task due exactly `datetime.max` UTC (summary "z"): `list_items`
returns the no-due task FIRST, because `_todo_sort_key` maps a missing due
to the `datetime.max` sentinel, which ties with a real due of that value
and falls back to the summary tiebreak.  "Tasks lacking a due value are
sorted after all tasks that have one" fails at this input. -/
theorem C9_no_due_before_max_due :
    iterItems exStoreMax = [exItemA, exItemZ]
    ∧ exItemA.due = none ∧ exItemZ.due = some dtMaxUtc := by
  decide

theorem charListLE_total : ∀ as bs : List Char,
    charListLE as bs = true ∨ charListLE bs as = true
  | [], _ => Or.inl rfl
  | _ :: _, [] => Or.inr rfl
  | a :: as, b :: bs => by
      rcases lt_trichotomy a b with h | h | h
      · left; simp [charListLE, h]
      · subst h
        rcases charListLE_total as bs with h2 | h2
        · left; simp [charListLE, h2]
        · right; simp [charListLE, h2]
      · right; simp [charListLE, h]

theorem charListLE_trans (as : List Char) : ∀ bs cs : List Char,
    charListLE as bs = true → charListLE bs cs = true → charListLE as cs = true := by
  induction as with
  | nil => intro bs cs _ _; rfl
  | cons a as ih =>
      intro bs cs h1 h2
      cases bs with
      | nil => simp [charListLE] at h1
      | cons b bs =>
          cases cs with
          | nil => simp [charListLE] at h2
          | cons c cs =>
              by_cases hab : a < b
              · by_cases hbc : b < c
                · have hac : a < c := lt_trans hab hbc
                  simp [charListLE, hac]
                · have hbc' : b = c := by
                    by_cases hbceq : b = c
                    · exact hbceq
                    · simp [charListLE, hbc, hbceq] at h2
                  subst hbc'
                  simp [charListLE, hab]
              · by_cases hab' : a = b
                · subst hab'
                  by_cases hac : a < c
                  · simp [charListLE, hac]
                  · by_cases haceq : a = c
                    · subst haceq
                      have r1 : charListLE as bs = true := by
                        simp [charListLE] at h1; exact h1
                      have r2 : charListLE bs cs = true := by
                        simp [charListLE, hac] at h2; exact h2
                      have r3 := ih bs cs r1 r2
                      simp [charListLE, r3]
                    · simp [charListLE, hac, haceq] at h2
                · simp [charListLE, hab, hab'] at h1

theorem keyLE_total (a b : TodoItemL) : keyLE a b ∨ keyLE b a := by
  unfold keyLE
  rcases lt_trichotomy (todoSortKey a).1 (todoSortKey b).1 with h | h | h
  · exact Or.inl (Or.inl h)
  · rcases charListLE_total (todoSortKey a).2.data (todoSortKey b).2.data with h2 | h2
    · exact Or.inl (Or.inr ⟨h, h2⟩)
    · exact Or.inr (Or.inr ⟨h.symm, h2⟩)
  · exact Or.inr (Or.inl h)

theorem keyLE_trans (a b c : TodoItemL) :
    keyLE a b → keyLE b c → keyLE a c := by
  unfold keyLE
  rintro (h1 | ⟨h1, h1'⟩) (h2 | ⟨h2, h2'⟩)
  · exact Or.inl (lt_trans h1 h2)
  · exact Or.inl (h2 ▸ h1)
  · exact Or.inl (h1 ▸ h2)
  · exact Or.inr ⟨h1.trans h2, charListLE_trans _ _ _ h1' h2'⟩

/-- C9 (amended): `list_items` returns a permutation of the stored items
that is sorted by `_todo_sort_key` (due ascending with missing dues mapped
to the `datetime.max` sentinel, ties broken by case-insensitive summary).
Consequently a no-due task can only be preceded by tasks whose due is at
least the sentinel: tasks with any earlier due sort before all no-due
tasks, and only a task due exactly `datetime.max` can tie with them.  The
claim's concrete example holds: dues [2024-01-03, none, 2024-01-01] with
summaries ["B","A","C"] are returned as C, B, A. -/
theorem C9_amended_sorted_with_sentinel (s : ManagerState) :
    (iterItems s).Perm (s.tasks.map (fun kv => kv.2.item))
    ∧ List.Sorted keyLE (iterItems s)
    ∧ (∀ (i j : Fin (iterItems s).length), i ≤ j →
        ((iterItems s).get i).due = none →
        ∀ d, ((iterItems s).get j).due = some d → dtMaxUtc ≤ d)
    ∧ (iterItems exStoreOrder).map (fun i => (i.summary, i.due))
        = [("C", some 20240101), ("B", some 20240103), ("A", none)] := by
  haveI : IsTotal TodoItemL keyLE := ⟨keyLE_total⟩
  haveI : IsTrans TodoItemL keyLE := ⟨keyLE_trans⟩
  refine ⟨List.perm_insertionSort keyLE _, List.sorted_insertionSort keyLE _, ?_, by decide⟩
  intro i j hij hnone d hd
  rcases eq_or_lt_of_le hij with heq | hlt
  · have : i = j := Fin.ext (congrArg Fin.val heq)
    subst this
    rw [hnone] at hd
    cases hd
  · have hs : List.Sorted keyLE (iterItems s) := List.sorted_insertionSort keyLE _
    have hrel : keyLE ((iterItems s).get i) ((iterItems s).get j) :=
      hs.rel_get_of_lt hlt
    have e1 : (todoSortKey ((iterItems s).get i)).1 = dtMaxUtc := by
      show ((iterItems s).get i).due.getD dtMaxUtc = dtMaxUtc
      rw [hnone]
      rfl
    have e2 : (todoSortKey ((iterItems s).get j)).1 = d := by
      show ((iterItems s).get j).due.getD dtMaxUtc = d
      rw [hd]
      rfl
    rcases hrel with h | ⟨h, _⟩
    · rw [e1, e2] at h
      exact le_of_lt h
    · rw [e1, e2] at h
      exact le_of_eq h

/-- Witness for the amended C9 at the two-item store: position 0 (no due)
precedes position 1 only because that task's due is the sentinel itself. -/
theorem C9_amended_sorted_with_sentinel_witness : dtMaxUtc ≤ dtMaxUtc :=
  (C9_amended_sorted_with_sentinel exStoreMax).2.2.1
    ⟨0, by decide⟩ ⟨1, by decide⟩ (by decide) (by decide) dtMaxUtc (by decide)

/-! ### C6: the shape of created child tasks (corrected) -/

theorem addChild_fold_preserve (pk psum : String) (src : Option String)
    (puid : String) (ov : Option Nat) (ts : List PlannedTask) :
    ∀ (t0 : Dict StoredTask) (pc0 : Dict (List String)) (n0 : Nat) (x : String),
    (∀ j, j < ts.length → x ≠ genUid (n0 + j)) →
    dget (ts.foldl (addChild pk psum src puid ov) (t0, pc0, n0)).1 x = dget t0 x := by
  induction ts with
  | nil => intro t0 pc0 n0 x _; rfl
  | cons p rest ih =>
      intro t0 pc0 n0 x hx
      have h0 : x ≠ genUid n0 := by
        have := hx 0 (Nat.succ_pos _)
        rwa [Nat.add_zero] at this
      have hrest : ∀ j, j < rest.length → x ≠ genUid ((n0 + 1) + j) := by
        intro j hj
        have := hx (j + 1) (Nat.succ_lt_succ hj)
        rwa [show n0 + (j + 1) = (n0 + 1) + j from by omega] at this
      simp only [List.foldl_cons]
      rw [show addChild pk psum src puid ov (t0, pc0, n0) p
          = (dset t0 (genUid n0)
              ⟨{ uid := genUid n0
               , summary := psum ++ ": " ++ p.title
               , description := childDescription p
               , status := .needsAction
               , due := p.due.orElse (fun _ => ov)
               , extraSource := src
               , extraParentUid := some puid
               , extraMentalLoad := p.effort }, pk, false⟩,
             dset pc0 pk
               (if genUid n0 ∈ (dget pc0 pk).getD [] then (dget pc0 pk).getD []
                else (dget pc0 pk).getD [] ++ [genUid n0]),
             n0 + 1) from rfl]
      rw [ih _ _ _ x hrest]
      exact dget_dset_ne _ _ _ _ (fun h => h0 h.symm)

theorem addChild_fold_lookup (pk psum : String) (src : Option String)
    (puid : String) (ov : Option Nat) (ts : List PlannedTask) :
    ∀ (t0 : Dict StoredTask) (pc0 : Dict (List String)) (n0 : Nat)
      (i : Nat) (hi : i < ts.length),
    dget (ts.foldl (addChild pk psum src puid ov) (t0, pc0, n0)).1 (genUid (n0 + i))
      = some ⟨{ uid := genUid (n0 + i)
              , summary := psum ++ ": " ++ (ts.get ⟨i, hi⟩).title
              , description := childDescription (ts.get ⟨i, hi⟩)
              , status := .needsAction
              , due := (ts.get ⟨i, hi⟩).due.orElse (fun _ => ov)
              , extraSource := src
              , extraParentUid := some puid
              , extraMentalLoad := (ts.get ⟨i, hi⟩).effort }, pk, false⟩ := by
  induction ts with
  | nil => intro t0 pc0 n0 i hi; exact absurd hi (Nat.not_lt_zero i)
  | cons p rest ih =>
      intro t0 pc0 n0 i hi
      simp only [List.foldl_cons]
      rw [show addChild pk psum src puid ov (t0, pc0, n0) p
          = (dset t0 (genUid n0)
              ⟨{ uid := genUid n0
               , summary := psum ++ ": " ++ p.title
               , description := childDescription p
               , status := .needsAction
               , due := p.due.orElse (fun _ => ov)
               , extraSource := src
               , extraParentUid := some puid
               , extraMentalLoad := p.effort }, pk, false⟩,
             dset pc0 pk
               (if genUid n0 ∈ (dget pc0 pk).getD [] then (dget pc0 pk).getD []
                else (dget pc0 pk).getD [] ++ [genUid n0]),
             n0 + 1) from rfl]
      cases i with
      | zero =>
          have hfresh : ∀ j, j < rest.length →
              genUid (n0 + 0) ≠ genUid ((n0 + 1) + j) := by
            intro j hj h
            have := genUid_inj h
            omega
          rw [addChild_fold_preserve pk psum src puid ov rest _ _ _ _ hfresh]
          rw [Nat.add_zero]
          exact dget_dset_self _ _ _
      | succ i' =>
          have hi' : i' < rest.length := Nat.lt_of_succ_lt_succ hi
          have h := ih (dset t0 (genUid n0)
              ⟨{ uid := genUid n0
               , summary := psum ++ ": " ++ p.title
               , description := childDescription p
               , status := .needsAction
               , due := p.due.orElse (fun _ => ov)
               , extraSource := src
               , extraParentUid := some puid
               , extraMentalLoad := p.effort }, pk, false⟩)
            (dset pc0 pk
               (if genUid n0 ∈ (dget pc0 pk).getD [] then (dget pc0 pk).getD []
                else (dget pc0 pk).getD [] ++ [genUid n0]))
            (n0 + 1) i' hi'
          rw [show n0 + (i' + 1) = (n0 + 1) + i' from by omega]
          exact h

/-- C6 (amended): for every `PlannedTask` in a plan handed to
`replace_subtree`, the stored child task has summary
`"<parent summary>: <planned title>"`, description the newline-join of the
truthy (present and non-empty) values among the planned description, the
line `"Mental Load: <effort>"`, and the planned notes (`None` when all are
absent), status NEEDS_ACTION, due the planned due if present else the
`due_override`, and attributes carrying the id of the parent task that the
same call installs (its stored entry is the parent for the key and bears
the parent summary). -/
theorem C6_amended_child_fields (s : ManagerState) (parentKey : String)
    (plan : PlannedResponse) (dueOverride : Option Nat)
    (i : Nat) (hi : i < plan.tasks.length) :
    dget (replaceParentTasks s parentKey plan dueOverride).tasks
        (genUid (s.nextUid + 1 + i))
      = some ⟨{ uid := genUid (s.nextUid + 1 + i)
              , summary := parentSummaryOf s parentKey
                  ++ ": " ++ (plan.tasks.get ⟨i, hi⟩).title
              , description := childDescription (plan.tasks.get ⟨i, hi⟩)
              , status := .needsAction
              , due := (plan.tasks.get ⟨i, hi⟩).due.orElse (fun _ => dueOverride)
              , extraSource := parentSourceOf s parentKey
              , extraParentUid := some (genUid s.nextUid)
              , extraMentalLoad := (plan.tasks.get ⟨i, hi⟩).effort }, parentKey, false⟩
    ∧ (dget (replaceParentTasks s parentKey plan dueOverride).tasks
          (genUid s.nextUid)).map (fun t => (t.isParent, t.parentKey, t.item.summary))
        = some (true, parentKey, parentSummaryOf s parentKey) := by
  unfold replaceParentTasks
  dsimp only
  constructor
  · exact addChild_fold_lookup parentKey _ _ _ dueOverride plan.tasks _ _ _ i hi
  · have hfresh : ∀ j, j < plan.tasks.length →
        genUid s.nextUid ≠ genUid ((s.nextUid + 1) + j) := by
      intro j hj h
      have := genUid_inj h
      omega
    rw [addChild_fold_preserve parentKey _ _ _ dueOverride plan.tasks _ _ _ _ hfresh]
    rw [dget_dset_self]
    rfl

/-- Witness for the amended C6: one planned task with no optional fields,
installed into the empty store. -/
theorem C6_amended_child_fields_witness :
    dget (replaceParentTasks emptyState "k" exPlanOne none).tasks (genUid 1)
      = some ⟨{ uid := genUid 1
              , summary := "Mental Load Aufgabe: step1"
              , description := none
              , status := .needsAction
              , due := none
              , extraSource := none
              , extraParentUid := some (genUid 0)
              , extraMentalLoad := none }, "k", false⟩
    ∧ (dget (replaceParentTasks emptyState "k" exPlanOne none).tasks
          (genUid 0)).map (fun t => (t.isParent, t.parentKey, t.item.summary))
        = some (true, "k", "Mental Load Aufgabe") :=
  C6_amended_child_fields emptyState "k" exPlanOne none 0 (by decide)

/-- C7 (amended): for two events that agree on summary, start and end, the
signatures are equal exactly when the SERIALIZED descriptions agree (an
absent description and an empty one both serialize to "", so they
collide); in particular signatures are deterministic in the observable
fields, and an edit that changes the serialized description always changes
the signature. -/
theorem C7_amended_signature (e1 e2 : CalendarEvent)
    (hs : e1.summary = e2.summary) (hst : e1.start = e2.start)
    (hen : e1.stop = e2.stop) :
    eventSignature e1 = eventSignature e2
      ↔ optOrEmpty e1.description = optOrEmpty e2.description := by
  unfold eventSignature
  rw [hs, hst, hen]
  have h4 : ∀ a b c d : String, String.intercalate "|" [a, b, c, d]
      = ((a ++ "|" ++ b) ++ "|" ++ c) ++ "|" ++ d := fun _ _ _ _ => rfl
  rw [h4, h4]
  constructor
  · intro h
    have hd := congrArg String.data h
    simp only [String.data_append] at hd
    have h1 := List.append_cancel_right hd
    have h2 := List.append_cancel_right h1
    have h3 := List.append_cancel_right h2
    have h5 := List.append_cancel_right h3
    have h6 := List.append_cancel_left h5
    exact congrArg String.mk h6
  · intro h
    rw [h]

/-- Witness for the amended C7: two events differing in serialized
description ("x" vs "y") with equal other fields. -/
theorem C7_amended_signature_witness :
    eventSignature ⟨some "u", "s", some "x", .dt 1, .dt 2⟩
      = eventSignature ⟨some "u", "s", some "y", .dt 1, .dt 2⟩
    ↔ optOrEmpty (some "x") = optOrEmpty (some "y") :=
  C7_amended_signature ⟨some "u", "s", some "x", .dt 1, .dt 2⟩
    ⟨some "u", "s", some "y", .dt 1, .dt 2⟩ rfl rfl rfl

/-! ### Cycle decomposition lemmas (for C4 and C5) -/

theorem observedKeys_append (l1 l2 : List (String × CalendarEvent)) :
    observedKeys (l1 ++ l2) = observedKeys l1 ++ observedKeys l2 := by
  simp [observedKeys]

theorem processAllPairs_append (planner : CalendarEvent → PlannedResponse)
    (l1 l2 : List (String × CalendarEvent)) :
    ∀ s : ManagerState,
    processAllPairs planner (l1 ++ l2) s
      = ((processAllPairs planner l2 (processAllPairs planner l1 s).1).1,
         (processAllPairs planner l1 s).2
           + (processAllPairs planner l2 (processAllPairs planner l1 s).1).2) := by
  induction l1 with
  | nil => intro s; simp [processAllPairs]
  | cons p rest ih =>
      intro s
      obtain ⟨cid, e⟩ := p
      simp only [List.cons_append, processAllPairs]
      simp only [List.append_eq]
      rw [ih]
      simp [Nat.add_assoc]

theorem processEvents_eq (planner : CalendarEvent → PlannedResponse) (cid : String) :
    ∀ (evs : List CalendarEvent) (s : ManagerState) (obs : List String) (calls : Nat),
    processEvents planner cid evs s obs calls
      = ((processAllPairs planner (evs.map (fun e => (cid, e))) s).1,
         obs ++ observedKeys (evs.map (fun e => (cid, e))),
         calls + (processAllPairs planner (evs.map (fun e => (cid, e))) s).2) := by
  intro evs
  induction evs with
  | nil => intro s obs calls; simp [processEvents, processAllPairs, observedKeys]
  | cons e rest ih =>
      intro s obs calls
      simp only [processEvents, List.map_cons, processAllPairs, observedKeys]
      rw [ih]
      simp [observedKeys, List.append_assoc, Nat.add_assoc]

theorem runCycleFrom_split (planner : CalendarEvent → PlannedResponse) :
    ∀ (pre rest : List (String × Except Unit (List CalendarEvent)))
      (s : ManagerState) (obs : List String) (calls : Nat),
    (∀ c ∈ pre, ∃ evs, c.2 = Except.ok evs) →
    runCycleFrom planner (pre ++ rest) s obs calls
      = runCycleFrom planner rest (processAllPairs planner (calPairs pre) s).1
          (obs ++ observedKeys (calPairs pre))
          (calls + (processAllPairs planner (calPairs pre) s).2) := by
  intro pre
  induction pre with
  | nil => intro rest s obs calls _; simp [calPairs, processAllPairs, observedKeys]
  | cons hd tl ih =>
      intro rest s obs calls hok
      obtain ⟨cid, fet⟩ := hd
      obtain ⟨evs, hevs⟩ := hok (cid, fet) (List.mem_cons_self _ _)
      dsimp only at hevs
      subst hevs
      simp only [List.cons_append, runCycleFrom]
      rw [processEvents_eq]
      dsimp only
      simp only [List.append_eq]
      rw [ih rest _ _ _ (fun c hc => hok c (List.mem_cons_of_mem _ hc))]
      rw [show calPairs ((cid, Except.ok evs) :: tl)
          = evs.map (fun e => (cid, e)) ++ calPairs tl from rfl]
      rw [processAllPairs_append]
      rw [observedKeys_append]
      simp [List.append_assoc, Nat.add_assoc]

theorem runCycleFrom_ok (planner : CalendarEvent → PlannedResponse)
    (cals : List (String × Except Unit (List CalendarEvent)))
    (s : ManagerState) (obs : List String) (calls : Nat)
    (hok : ∀ c ∈ cals, ∃ evs, c.2 = Except.ok evs) :
    runCycleFrom planner cals s obs calls
      = ((removeMissingCalendarEvents (processAllPairs planner (calPairs cals) s).1
            (obs ++ observedKeys (calPairs cals))).1,
         calls + (processAllPairs planner (calPairs cals) s).2, true) := by
  have h := runCycleFrom_split planner cals [] s obs calls hok
  rw [List.append_nil] at h
  rw [h]
  rfl

/-- C5 (amended): when one calendar source fails to fetch, the cycle
aborts with a cycle-level failure at that source: updates from sources
processed earlier in the cycle are kept, but the remaining sources are not
processed in that cycle and the prune step is skipped, so previously
installed subtrees are not modified or removed by the failing cycle. -/
theorem C5_amended_failure_aborts_cycle (planner : CalendarEvent → PlannedResponse)
    (pre : List (String × Except Unit (List CalendarEvent))) (badId : String)
    (post : List (String × Except Unit (List CalendarEvent))) (s : ManagerState)
    (hok : ∀ c ∈ pre, ∃ evs, c.2 = Except.ok evs) :
    runCycle planner (pre ++ (badId, Except.error ()) :: post) s
      = ((processAllPairs planner (calPairs pre) s).1,
         (processAllPairs planner (calPairs pre) s).2, false) := by
  unfold runCycle
  rw [if_neg (show ¬ (pre ++ (badId, Except.error ()) :: post).isEmpty = true by simp)]
  rw [runCycleFrom_split planner pre ((badId, Except.error ()) :: post) s [] 0 hok]
  simp [runCycleFrom]

/-- Witness for the amended C5: source "c" is processed, "bad" fails,
source "d" is never reached. -/
theorem C5_amended_failure_aborts_cycle_witness :
    runCycle exPlanner
        ([("c", Except.ok [exEventA])] ++ ("bad", Except.error ())
          :: [("d", Except.ok [exEventB])]) emptyState
      = ((processAllPairs exPlanner (calPairs [("c", Except.ok [exEventA])]) emptyState).1,
         (processAllPairs exPlanner (calPairs [("c", Except.ok [exEventA])]) emptyState).2,
         false) :=
  C5_amended_failure_aborts_cycle exPlanner [("c", Except.ok [exEventA])] "bad"
    [("d", Except.ok [exEventB])] emptyState
    (by
      intro c hc
      simp only [List.mem_singleton] at hc
      subst hc
      exact ⟨[exEventA], rfl⟩)

/-! ### C4: second-cycle idempotence (corrected) -/

theorem replaceParentTasks_sigs (s : ManagerState) (pk : String)
    (plan : PlannedResponse) (d : Option Nat) :
    (replaceParentTasks s pk plan d).eventSignatures = s.eventSignatures := rfl

theorem processCalendarEvent_skip (planner : CalendarEvent → PlannedResponse)
    (s : ManagerState) (k : String) (e : CalendarEvent)
    (h : dget s.eventSignatures k = some (eventSignature e)) :
    processCalendarEvent planner s k e = (s, false, 0) := by
  unfold processCalendarEvent
  rw [if_pos h]

theorem processCalendarEvent_sig_self (planner : CalendarEvent → PlannedResponse)
    (s : ManagerState) (k : String) (e : CalendarEvent) :
    dget (processCalendarEvent planner s k e).1.eventSignatures k
      = some (eventSignature e) := by
  unfold processCalendarEvent
  by_cases h : dget s.eventSignatures k = some (eventSignature e)
  · rw [if_pos h]
    exact h
  · rw [if_neg h]
    dsimp only
    rw [replaceParentTasks_sigs]
    exact dget_dset_self _ _ _

theorem processCalendarEvent_sig_other (planner : CalendarEvent → PlannedResponse)
    (s : ManagerState) (k : String) (e : CalendarEvent) (k' : String)
    (hne : k' ≠ k) :
    dget (processCalendarEvent planner s k e).1.eventSignatures k'
      = dget s.eventSignatures k' := by
  unfold processCalendarEvent
  by_cases h : dget s.eventSignatures k = some (eventSignature e)
  · rw [if_pos h]
  · rw [if_neg h]
    dsimp only
    rw [replaceParentTasks_sigs]
    exact dget_dset_ne _ _ _ _ (fun hh => hne hh.symm)

theorem foldl_removeParent_sigs : ∀ (l : List String) (s : ManagerState),
    (l.foldl removeParent s).eventSignatures = s.eventSignatures := by
  intro l
  induction l with
  | nil => intro s; rfl
  | cons hd tl ih =>
      intro s
      simp only [List.foldl_cons]
      rw [ih]
      rfl

theorem prune_sigs (s : ManagerState) (valid : List String) :
    ((removeMissingCalendarEvents s valid).1).eventSignatures = s.eventSignatures := by
  unfold removeMissingCalendarEvents
  dsimp only
  exact foldl_removeParent_sigs _ s

theorem removeParent_meta (s : ManagerState) (k : String) :
    (removeParent s k).parentMeta = dpop s.parentMeta k := rfl

theorem foldl_removeParent_meta_keys : ∀ (l : List String) (s : ManagerState) (k : String),
    k ∈ dkeys ((l.foldl removeParent s).parentMeta) → k ∈ dkeys s.parentMeta ∧ k ∉ l := by
  intro l
  induction l with
  | nil => intro s k hk; exact ⟨hk, List.not_mem_nil k⟩
  | cons hd tl ih =>
      intro s k hk
      simp only [List.foldl_cons] at hk
      obtain ⟨h1, h2⟩ := ih (removeParent s hd) k hk
      rw [removeParent_meta] at h1
      obtain ⟨h3, h4⟩ := (dkeys_dpop_mem _ _ _).mp h1
      refine ⟨h3, fun hcon => ?_⟩
      rcases List.mem_cons.mp hcon with hh | hh
      · exact h4 hh
      · exact h2 hh

theorem prune_post (s : ManagerState) (valid : List String) (k : String)
    (hcal : strStartsWith k "calendar:" = true)
    (hmem : k ∈ dkeys ((removeMissingCalendarEvents s valid).1).parentMeta) :
    k ∈ valid := by
  unfold removeMissingCalendarEvents at hmem
  dsimp only at hmem
  obtain ⟨h1, h2⟩ := foldl_removeParent_meta_keys _ s k hmem
  by_contra hv
  apply h2
  apply List.mem_filter.mpr
  refine ⟨h1, ?_⟩
  simp [hcal, hv]

theorem processAllPairs_sig_preserve (planner : CalendarEvent → PlannedResponse) :
    ∀ (L : List (String × CalendarEvent)) (s : ManagerState) (k0 v : String),
    dget s.eventSignatures k0 = some v →
    (∀ q ∈ L, makeParentKey q.1 q.2 = k0 → eventSignature q.2 = v) →
    dget (processAllPairs planner L s).1.eventSignatures k0 = some v := by
  intro L
  induction L with
  | nil => intro s k0 v hv _; exact hv
  | cons q rest ih =>
      intro s k0 v hv hcons
      obtain ⟨cid, e⟩ := q
      simp only [processAllPairs]
      apply ih
      · by_cases hk : makeParentKey cid e = k0
        · rw [hk, processCalendarEvent_sig_self planner s k0 e]
          have h2 := hcons (cid, e) (List.mem_cons_self _ _) hk
          rw [h2]
        · rw [processCalendarEvent_sig_other planner s _ e k0 (fun hh => hk hh.symm)]
          exact hv
      · intro q hq hkey
        exact hcons q (List.mem_cons_of_mem _ hq) hkey

theorem processAllPairs_sig_after (planner : CalendarEvent → PlannedResponse) :
    ∀ (L : List (String × CalendarEvent)) (s : ManagerState),
    (∀ p q, p ∈ L → q ∈ L → makeParentKey p.1 p.2 = makeParentKey q.1 q.2 →
      eventSignature p.2 = eventSignature q.2) →
    ∀ p ∈ L, dget (processAllPairs planner L s).1.eventSignatures
        (makeParentKey p.1 p.2) = some (eventSignature p.2) := by
  intro L
  induction L with
  | nil => intro s _ p hp; cases hp
  | cons q0 rest ih =>
      intro s hcons p hp
      obtain ⟨cid, e⟩ := q0
      simp only [processAllPairs]
      rcases List.mem_cons.mp hp with h | h
      · subst h
        apply processAllPairs_sig_preserve planner rest _ _ _
          (processCalendarEvent_sig_self planner s _ e)
        intro q hq hkey
        exact hcons q (cid, e) (List.mem_cons_of_mem _ hq) (List.mem_cons_self _ _) hkey
      · exact ih _
          (fun a b ha hb hk =>
            hcons a b (List.mem_cons_of_mem _ ha) (List.mem_cons_of_mem _ hb) hk) p h

theorem processAllPairs_all_skip (planner : CalendarEvent → PlannedResponse) :
    ∀ (L : List (String × CalendarEvent)) (s : ManagerState),
    (∀ p ∈ L, dget s.eventSignatures (makeParentKey p.1 p.2)
      = some (eventSignature p.2)) →
    processAllPairs planner L s = (s, 0) := by
  intro L
  induction L with
  | nil => intro s _; rfl
  | cons q rest ih =>
      intro s hall
      obtain ⟨cid, e⟩ := q
      simp only [processAllPairs]
      rw [processCalendarEvent_skip planner s _ e (hall (cid, e) (List.mem_cons_self _ _))]
      rw [ih s (fun p hp => hall p (List.mem_cons_of_mem _ hp))]
      rfl

theorem prune_noop (s : ManagerState) (valid : List String)
    (h : ∀ k ∈ dkeys s.parentMeta, strStartsWith k "calendar:" = true → k ∈ valid) :
    removeMissingCalendarEvents s valid = (s, 0) := by
  unfold removeMissingCalendarEvents
  have hnil : (dkeys s.parentMeta).filter
      (fun key => strStartsWith key "calendar:" && !(valid.contains key)) = [] := by
    rw [List.filter_eq_nil_iff]
    intro k hk
    by_cases hcal : strStartsWith k "calendar:" = true
    · have hin := h k hk hcal
      simp [hcal, hin]
    · simp [hcal]
  dsimp only
  rw [hnil]
  rfl

/-- C4 (counterexample): one calendar returning two events that share a uid
(hence one parent key) but differ in description.  The cycle list is
byte-identical on both runs, yet the second run performs TWO Planning Port
calls and changes the store: each cycle records the second event's
signature last, so the first event always mismatches on the next run. -/
theorem C4_duplicate_key_replans_every_cycle :
    (runCycle exPlanner exDupCals (runCycle exPlanner exDupCals emptyState).1).2.1 = 2
    ∧ (runCycle exPlanner exDupCals (runCycle exPlanner exDupCals emptyState).1).1
      ≠ (runCycle exPlanner exDupCals emptyState).1 := by
  decide

/-- C4 (amended): running a reconciliation cycle twice with byte-identical
observed intents performs zero Planning Port calls on the second cycle and
leaves the Task Store unchanged, PROVIDED all calendar fetches succeed and
no parent key occurs in the cycle with two different signatures (distinct
event uids suffice).  Each second-cycle intent hits the recorded-signature
skip (no planner call, no mutation) and the prune step removes nothing. -/
theorem C4_amended_second_cycle_idempotent (planner : CalendarEvent → PlannedResponse)
    (cals : List (String × Except Unit (List CalendarEvent))) (s0 : ManagerState)
    (hok : ∀ c ∈ cals, ∃ evs, c.2 = Except.ok evs)
    (hcons : ∀ p q, p ∈ calPairs cals → q ∈ calPairs cals →
      makeParentKey p.1 p.2 = makeParentKey q.1 q.2 →
      eventSignature p.2 = eventSignature q.2) :
    runCycle planner cals (runCycle planner cals s0).1
      = ((runCycle planner cals s0).1, 0, true) := by
  by_cases hnil : cals.isEmpty = true
  · simp [runCycle, hnil]
  · set s1 := (removeMissingCalendarEvents
      (processAllPairs planner (calPairs cals) s0).1
      ([] ++ observedKeys (calPairs cals))).1 with hs1
    have h1 : runCycle planner cals s0
        = (s1, 0 + (processAllPairs planner (calPairs cals) s0).2, true) := by
      unfold runCycle
      rw [if_neg hnil]
      exact runCycleFrom_ok planner cals s0 [] 0 hok
    rw [h1]
    dsimp only
    have hsig1 : ∀ p ∈ calPairs cals,
        dget s1.eventSignatures (makeParentKey p.1 p.2) = some (eventSignature p.2) := by
      intro p hp
      rw [hs1, prune_sigs]
      exact processAllPairs_sig_after planner (calPairs cals) s0 hcons p hp
    have hskip := processAllPairs_all_skip planner (calPairs cals) s1 hsig1
    have hmeta : ∀ k ∈ dkeys s1.parentMeta, strStartsWith k "calendar:" = true →
        k ∈ ([] ++ observedKeys (calPairs cals)) := by
      intro k hk hcal
      rw [hs1] at hk
      exact prune_post _ _ k hcal hk
    unfold runCycle
    rw [if_neg hnil]
    rw [runCycleFrom_ok planner cals s1 [] 0 hok]
    rw [hskip]
    dsimp only
    rw [prune_noop s1 _ hmeta]

/-- Witness for the amended C4: two calendars with one event each
(distinct parent keys); the second cycle is a no-op with zero calls. -/
theorem C4_amended_second_cycle_idempotent_witness :
    runCycle exPlanner exOkCals (runCycle exPlanner exOkCals emptyState).1
      = ((runCycle exPlanner exOkCals emptyState).1, 0, true) :=
  C4_amended_second_cycle_idempotent exPlanner exOkCals emptyState
    (by
      intro c hc
      simp [exOkCals] at hc
      rcases hc with rfl | rfl
      · exact ⟨[exEventA], rfl⟩
      · exact ⟨[exEventB], rfl⟩)
    (by
      intro p q hp hq hkey
      simp [exOkCals, calPairs] at hp hq
      rcases hp with rfl | rfl <;> rcases hq with rfl | rfl
      · rfl
      · exact absurd hkey (by decide)
      · exact absurd hkey (by decide)
      · rfl)
